import Mathlib

/-!
# logkit: leveled logging through a dispatch core

A shallow embedding of the Go package `logkit` (`logkit.go`, `console.go`,
`file.go`, `network.go`) and theorems about it.

* Go strings are `String`; `Severity` (`type Severity int`) is `Int`.
* Pointers are identities (`Ref`), the objects they point to live in explicit
  state (`core`, `Heap`) that every operation takes and returns.
* Calls on interface values (`Target`, `io.Writer`) and goroutine starts are
  recorded as `Effect`s, in program order.
* Goroutines and channels are modelled by a step function on system states
  (section "Shutdown protocol").
-/

namespace Logkit

/-! ## Severity (logkit.go 20-53) -/

/-- Severity describes the level of a log message: `type Severity int`. -/
abbrev Severity := Int

def SeverityEmergency : Severity := 0
def SeverityAlert : Severity := 1
def SeverityCritical : Severity := 2
def SeverityError : Severity := 3
def SeverityWarning : Severity := 4
def SeverityNotice : Severity := 5
def SeverityInfo : Severity := 6
def SeverityDebug : Severity := 7

/-- The map literal `SeverityName`, as its list of key/value pairs. -/
def SeverityName : List (Severity × String) :=
  [ (SeverityEmergency, "Emergency"),
    (SeverityAlert, "Alert"),
    (SeverityCritical, "Critical"),
    (SeverityError, "Error"),
    (SeverityWarning, "Warning"),
    (SeverityNotice, "Notice"),
    (SeverityInfo, "Info"),
    (SeverityDebug, "Debug") ]

/-- The method `func (s Severity) String() string`. -/
def Severity.String (s : Severity) : String :=
  match SeverityName.lookup s with
  | some label => label
  | none => "Unknown"

/-! ## Time and its layouts (Go standard library, package `time`) -/

/-- A `time.Time` read as the civil date and clock in its own location, with
the zone offset in seconds east of UTC. -/
structure Time where
  year : Int
  month : Nat
  day : Nat
  hour : Nat
  minute : Nat
  second : Nat
  offset : Int
deriving DecidableEq, Repr

/-- The two layouts the package passes to `Time.Format`:
`time.RFC3339` (`"2006-01-02T15:04:05Z07:00"`) and `"20060102"`. -/
inductive Layout where
  | RFC3339
  | yyyymmdd
deriving DecidableEq, Repr

/-- The helper `appendInt` of package `time`: the decimal text of `x`, a minus
sign first when negative, zero-padded on the left to `width` digits. -/
def appendInt (x : Int) (width : Nat) : String :=
  let digits := Nat.toDigits 10 x.natAbs
  String.mk ((if x < 0 then ['-'] else []) ++
    (List.replicate (width - digits.length) '0' ++ digits))

/-- The zone part `Z07:00` of a layout: `Z` for UTC, otherwise sign, hours,
colon, minutes (the offset is cut to whole minutes, rounding toward zero). -/
def formatZone (offset : Int) : String :=
  if offset = 0 then "Z"
  else
    let zone := Int.tdiv offset 60
    (if zone < 0 then "-" else "+") ++
      appendInt (Int.ofNat (zone.natAbs / 60)) 2 ++ ":" ++
      appendInt (Int.ofNat (zone.natAbs % 60)) 2

/-- The method `Time.Format`, for the layouts used by the package. -/
def Time.Format (t : Time) : Layout → String
  | Layout.RFC3339 =>
      appendInt t.year 4 ++ "-" ++ appendInt (Int.ofNat t.month) 2 ++ "-" ++
      appendInt (Int.ofNat t.day) 2 ++ "T" ++ appendInt (Int.ofNat t.hour) 2 ++ ":" ++
      appendInt (Int.ofNat t.minute) 2 ++ ":" ++ appendInt (Int.ofNat t.second) 2 ++
      formatZone t.offset
  | Layout.yyyymmdd =>
      appendInt t.year 4 ++ appendInt (Int.ofNat t.month) 2 ++ appendInt (Int.ofNat t.day) 2

/-! ## Entry (logkit.go 55-68) -/

/-- Entry represents a log entry. -/
structure Entry where
  Severity : Severity
  Category : String
  Message : String
  Time : Time
  CallStack : String
  FormattedMessage : String
deriving DecidableEq, Repr

/-- The method `func (e *Entry) String() string`. -/
def Entry.String (e : Entry) : String :=
  e.FormattedMessage

/-! ## fmt.Sprintf with the verb %v -/

/-- The scanning loop of `fmt.Sprintf` over a format whose directives are `%v`
and `%%`; each operand is given by its `%v` text (a string operand is printed
as it is, a `Severity` through its `String` method). The result is `none`
outside this fragment: another directive, or a number of operands that differs
from the number of `%v`. -/
def Sprintf.scan : List Char → List String → Option (List Char)
  | [], [] => some []
  | [], _ :: _ => none
  | '%' :: 'v' :: rest, a :: args => (Sprintf.scan rest args).map (fun out => a.data ++ out)
  | '%' :: 'v' :: _, [] => none
  | '%' :: '%' :: rest, args => (Sprintf.scan rest args).map (fun out => '%' :: out)
  | '%' :: _, _ => none
  | c :: rest, args => (Sprintf.scan rest args).map (fun out => c :: out)

/-- The call `fmt.Sprintf(format, operands...)` on the `%v` fragment. -/
def Sprintf (format : String) (operands : List String) : Option String :=
  (Sprintf.scan format.data operands).map String.mk

/-! ## Handles and the dispatch core (logkit.go 70-97) -/

/-- The identity of a heap object (a Go pointer). -/
abbrev Ref := Nat

/-- The identity of an `io.Writer` value; a nil writer is `none`. -/
abbrev Writer := Nat

/-- The writer `os.Stdout`. -/
def Stdout : Writer := 1

/-- The writer `os.Stderr`. -/
def Stderr : Writer := 2

/-- What a formatter can read through the `*LogKit` it is handed: the core the
handle points to and the handle's category. -/
structure LogKitView where
  core : Ref
  Category : String
deriving DecidableEq, Repr

/-- The type `Formatter func(*LogKit, *Entry) string`; a formatter reads the
handle and the entry it is given and changes neither. -/
abbrev Formatter := LogKitView → Entry → String

/-- DefaultFormatter is the default formatter used to format log message. -/
def DefaultFormatter (_l : LogKitView) (e : Entry) : String :=
  (Sprintf "%v [%v][%v] %v%v"
    [e.Time.Format Layout.RFC3339, Severity.String e.Severity, e.Category, e.Message,
      e.CallStack]).getD ""

/-- A channel `chan *Entry`: its capacity, the entries sent and not yet
received (oldest first) and whether it has been closed. A send on a channel
that holds `cap` entries parks the sender until the receiver has made room and
then hands over the same entry at the same place in the stream, so `buf` is
the stream of entries still owed to the receiver. -/
structure Chan where
  cap : Nat
  buf : List Entry
  closed : Bool
deriving DecidableEq, Repr

/-- The struct `core`; the field `open` is `isOpen`, `targets` holds the
pointers of the `Target` values, `lock` is left to the callers (each method
runs from `Lock` to the deferred `Unlock`). -/
structure core where
  isOpen : Bool
  entries : Option Chan
  errorWriter : Option Writer
  bufferSize : Int
  callStackDepth : Int
  callStackFilter : String
  maxLevel : Severity
  targets : List Ref
deriving DecidableEq, Repr

/-- LogKit records log messages and dispatches them to targets: the pointer to
the shared core, the category and the formatter (nil is `none`). -/
structure LogKit where
  core : Ref
  Category : String
  Formatter : Option Formatter

/-- The handle as a formatter sees it. -/
def LogKit.view (l : LogKit) : LogKitView :=
  { core := l.core, Category := l.Category }

/-! ## Options and constructors (logkit.go 99-189) -/

/-- The type `Option func(c *core)`. -/
abbrev CoreOption := core → core

def WithErrorWriter (w : Option Writer) : CoreOption :=
  fun c => { c with errorWriter := w }

def WithBuffer (s : Int) : CoreOption :=
  fun c => { c with bufferSize := s }

def WithCallStackDepth (d : Int) : CoreOption :=
  fun c => { c with callStackDepth := d }

def WithStackFilter (f : String) : CoreOption :=
  fun c => { c with callStackFilter := f }

def WithMaxLevel (l : Severity) : CoreOption :=
  fun c => { c with maxLevel := l }

def WithTargets (t : List Ref) : CoreOption :=
  fun c => { c with targets := t }

/-- NewLogKit constructs an instance of LogKit with the default options; `r` is
the address of the core it allocates. -/
def NewLogKit (r : Ref) : LogKit × core :=
  ({ core := r, Category := "app", Formatter := some DefaultFormatter },
   { isOpen := false, entries := none, errorWriter := some Stderr, bufferSize := 1024,
     callStackDepth := 0, callStackFilter := "", maxLevel := SeverityDebug, targets := [] })

/-- NewLogKitByOptions constructs a new instance of LogKit with the given options. -/
def NewLogKitByOptions (r : Ref) (opt : List CoreOption) : LogKit × core :=
  ({ core := r, Category := "app", Formatter := some DefaultFormatter },
   opt.foldl (fun c o => o c)
     { isOpen := false, entries := none, errorWriter := some Stderr, bufferSize := 1024,
       callStackDepth := 3, callStackFilter := "", maxLevel := SeverityDebug, targets := [] })

/-- The method `func (l *LogKit) Copy(category string, formatter Formatter) *LogKit`. -/
def LogKit.Copy (l : LogKit) (category : String) (formatter : Option Logkit.Formatter) :
    LogKit :=
  { core := l.core, Category := category, Formatter := formatter }

/-! ## The world outside the package -/

/-- One stack frame as `runtime.Caller` reports it. -/
structure Frame where
  file : String
  line : Int
deriving DecidableEq, Repr

/-- A value passed for `a ...interface{}`. -/
inductive Arg where
  | str (s : String)
  | int (n : Int)
deriving DecidableEq, Repr

/-- What the package reads from the runtime, the operating system and the
standard library: `runtime.GOOS`, `time.Now()`, the frames `runtime.Caller(i)`
answers for `i = 0, 1, ...`, `fmt.Sprintf` on a caller's format, `net.Dial`
(the error text when it fails), `filepath.Abs`, `filepath.Join` and
`os.OpenFile` (the error text when it fails). -/
structure Env where
  GOOS : String
  now : Time
  frames : List Frame
  Sprintf : String → List Arg → String
  dial : String → String → Option String
  abs : String → Except String String
  join : String → String → String
  openFile : String → Option String

/-- How a call ends: it returns, it panics, or its goroutine is parked on a
channel operation that only another goroutine can complete. -/
inductive Outcome (α : Type) where
  | returned (a : α)
  | panicked
  | parked
deriving DecidableEq, Repr

/-- The observable actions of the core, in program order. -/
inductive Effect where
  | makeChan (cap : Int)
  | targetOpen (p : Ref) (err : Option String)
  | write (w : Writer) (bytes : String)
  | goProcess
  | closeEntries
  | targetClose (p : Ref)
  | targetProcess (p : Ref) (entry : Option Entry)
deriving DecidableEq, Repr

/-! ## Console target (console.go) -/

/-- The function `newColorConsole`. -/
def newColorConsole (format : String) : String → String :=
  fun text => "\x1b[" ++ format ++ "m" ++ text ++ "\x1b[0m"

/-- The map literal `colorMap`, as its list of key/value pairs. -/
def colorMap : List (Severity × (String → String)) :=
  [ (SeverityEmergency, newColorConsole "1;95"),
    (SeverityAlert, newColorConsole "1;91"),
    (SeverityCritical, newColorConsole "35"),
    (SeverityError, newColorConsole "31"),
    (SeverityWarning, newColorConsole "33"),
    (SeverityNotice, newColorConsole "36"),
    (SeverityInfo, newColorConsole "32"),
    (SeverityDebug, newColorConsole "39") ]

/-- The struct `ConsoleTarget`; its unbuffered channel `close` carries no state
and is treated in the shutdown protocol. -/
structure ConsoleTarget where
  ColorMode : Bool
  Writer : Option Writer
deriving DecidableEq, Repr

def NewConsoleTarget : ConsoleTarget :=
  { ColorMode := true, Writer := some Stdout }

/-- The method `ConsoleTarget.Open`: the target after the call and the error. -/
def ConsoleTarget.Open (env : Env) (t : ConsoleTarget) (_w : Logkit.Writer) :
    ConsoleTarget × Option String :=
  if t.Writer = none then
    (t, some "ConsoleTarget.Writer cannot be nil. ")
  else if env.GOOS = "windows" then
    ({ t with ColorMode := false }, none)
  else
    (t, none)

/-- The method `ConsoleTarget.Process`. A nil entry parks the worker on
`t.close <- true`; `fmt.Fprintln` on a nil writer panics. -/
def ConsoleTarget.Process (t : ConsoleTarget) : Option Entry → Outcome (List Effect)
  | none => Outcome.parked
  | some entry =>
    let msg := entry.String
    let msg :=
      if t.ColorMode then
        match colorMap.lookup entry.Severity with
        | some color => color msg
        | none => msg
      else msg
    match t.Writer with
    | none => Outcome.panicked
    | some w => Outcome.returned [Effect.write w (msg ++ "\n")]

/-! ## File target (file.go) -/

/-- The struct `FileTarget`: `fd` is the path of the open file, `writer` the
bytes held by the `bufio.Writer`, `tick` whether the ticker and the goroutine
`clearBuffer` have been started. -/
structure FileTarget where
  FilePath : String
  fd : Option String
  errWriter : Option Writer
  writer : Option String
  tick : Bool
deriving DecidableEq, Repr

/-- The function `buildPath`: the absolute path, or the error of
`filepath.Abs` (the directory it may create is the file system's business). -/
def buildPath (env : Env) (p : String) : Except String String :=
  env.abs p

/-- The method `FileTarget.Open`: the target after the call and the error. -/
def FileTarget.Open (env : Env) (t : FileTarget) (w : Writer) : FileTarget × Option String :=
  match buildPath env t.FilePath with
  | Except.error err => (t, some err)
  | Except.ok path =>
    let t := { t with FilePath := env.join path (env.now.Format Layout.yyyymmdd ++ ".log") }
    match env.openFile t.FilePath with
    | some err => (t, some ("FileTarget was unable to create a log file: " ++ err ++ "\n"))
    | none =>
      ({ t with fd := some t.FilePath, writer := some "", errWriter := some w, tick := true }, none)

/-! ## Network target (network.go) -/

/-- The struct `NetworkTarget`: `entries` is the channel of capacity 1 (nil
before `Open`), `conn` whether a connection is held, `sending` whether the
goroutine `send` has been started. -/
structure NetworkTarget where
  Network : String
  Address : String
  entries : Option Chan
  conn : Bool
  sending : Bool
deriving DecidableEq, Repr

def NewNetworkTarget : NetworkTarget :=
  { Network := "", Address := "", entries := none, conn := false, sending := false }

/-- The method `NetworkTarget.connect`. -/
def NetworkTarget.connect (env : Env) (t : NetworkTarget) : NetworkTarget × Option String :=
  let t := if t.conn then { t with conn := false } else t
  match env.dial t.Network t.Address with
  | some err => (t, some err)
  | none => ({ t with conn := true }, none)

/-- The method `NetworkTarget.Open`: the target after the call and the error. -/
def NetworkTarget.Open (env : Env) (t : NetworkTarget) (_w : Writer) :
    NetworkTarget × Option String :=
  if t.Network = "" then
    (t, some "NetworkTarget.Network must be set. ")
  else if t.Address = "" then
    (t, some "NetworkTarget.Address must be set. ")
  else
    let t := { t with entries := some { cap := 1, buf := [], closed := false }, conn := false }
    match t.connect env with
    | (t, some err) => (t, some err)
    | (t, none) => ({ t with sending := true }, none)

/-! ## The Target interface and the heap of targets -/

/-- A value behind the interface `Target`. -/
inductive Target where
  | console (t : ConsoleTarget)
  | file (t : FileTarget)
  | network (t : NetworkTarget)
deriving DecidableEq, Repr

/-- The interface method `Target.Open`. -/
def Target.Open (env : Env) (w : Writer) : Target → Target × Option String
  | Target.console t => ((t.Open env w).1 |> Target.console, (t.Open env w).2)
  | Target.file t => ((t.Open env w).1 |> Target.file, (t.Open env w).2)
  | Target.network t => ((t.Open env w).1 |> Target.network, (t.Open env w).2)

/-- The target each pointer refers to. -/
abbrev Heap := Ref → Target

/-- The heap after a store through the pointer `p`. -/
def Heap.set (h : Heap) (p : Ref) (t : Target) : Heap :=
  fun q => if q = p then t else h q

/-! ## core.Open (logkit.go 191-229) -/

/-- The state of the loop over `c.targets` in `core.Open`: the slice `targets`
built so far, the heap and the actions so far. -/
structure OpenLoop where
  targets : List Ref
  heap : Heap
  effects : List Effect

/-- One iteration of `for _, target := range c.targets` in `core.Open`. -/
def core.openTarget (env : Env) (w : Writer) (st : OpenLoop) (target : Ref) : OpenLoop :=
  match (st.heap target).Open env w with
  | (t, some err) =>
    { targets := st.targets,
      heap := st.heap.set target t,
      effects := st.effects ++
        [Effect.targetOpen target (some err),
         Effect.write w ("Failed to open target:" ++ err ++ " ")] }
  | (t, none) =>
    { targets := st.targets ++ [target],
      heap := st.heap.set target t,
      effects := st.effects ++ [Effect.targetOpen target none] }

/-- What `core.Open` leaves behind: the error returned (nil is `none`), the
core, the heap of targets and the actions performed. -/
structure OpenResult where
  err : Option String
  c : core
  heap : Heap
  effects : List Effect

/-- The method `func (c *core) Open() error`. -/
def core.Open (env : Env) (c : core) (heap : Heap) : OpenResult :=
  if c.isOpen then
    { err := none, c := c, heap := heap, effects := [] }
  else
    match c.errorWriter with
    | none =>
      { err := some "LogKit.ErrorWriter must be set. ", c := c, heap := heap, effects := [] }
    | some w =>
      if c.bufferSize < 0 then
        { err := some "LogKit.BufferSize must be no less than 0. ", c := c, heap := heap,
          effects := [] }
      else if c.callStackDepth < 0 then
        { err := some "Logger.CallStackDepth must be no less than 0. ", c := c, heap := heap,
          effects := [] }
      else
        let entries : Chan := { cap := c.bufferSize.toNat, buf := [], closed := false }
        let st := c.targets.foldl (core.openTarget env w)
          { targets := [], heap := heap, effects := [Effect.makeChan c.bufferSize] }
        { err := none,
          c := { c with entries := some entries, targets := st.targets, isOpen := true },
          heap := st.heap,
          effects := st.effects ++ [Effect.goProcess] }

/-! ## core.process (logkit.go 231-243) -/

/-- The receive `entry, ok := <-c.entries`: the oldest entry, or `(nil, false)`
once the channel is closed and empty; `none` while the receiver is parked on
an empty open channel. -/
def Chan.recv (ch : Chan) : Option (Option Entry × Bool × Chan) :=
  match ch.buf with
  | e :: rest => some (some e, true, { ch with buf := rest })
  | [] => if ch.closed then some (none, false, ch) else none

/-- The method `func (c *core) process()`: the calls of `Process` it makes, in
order, when it returns. `fuel` bounds the iterations of `for`; the result is
`none` when the fuel runs out or the worker is parked on the open, empty queue. -/
def core.process : Nat → List Ref → Chan → Option (List Effect)
  | 0, _, _ => none
  | fuel + 1, targets, ch =>
    match ch.recv with
    | none => none
    | some (entry, ok, ch) =>
      let calls := targets.map (fun target => Effect.targetProcess target entry)
      if !ok then some calls
      else (core.process fuel targets ch).map (fun rest => calls ++ rest)

/-- The values a target sees in its `Process` calls, in order. -/
def observed (p : Ref) : List Effect → List (Option Entry)
  | [] => []
  | Effect.targetProcess q entry :: rest =>
    if q = p then entry :: observed p rest else observed p rest
  | _ :: rest => observed p rest

/-! ## core.Close (logkit.go 245-262) -/

/-- The method `func (c *core) Close()`: the core and the actions performed when
it returns. Closing a nil or closed channel panics. Each `target.Close()` is
taken to return; whether it does is the subject of the shutdown protocol. -/
def core.Close (c : core) : Outcome (core × List Effect) :=
  if !c.isOpen then
    Outcome.returned (c, [])
  else
    match c.entries with
    | none => Outcome.panicked
    | some ch =>
      if ch.closed then Outcome.panicked
      else
        Outcome.returned
          ({ c with isOpen := false, entries := some { ch with closed := true } },
           Effect.closeEntries :: c.targets.map Effect.targetClose)

/-- The number of `Close` calls a target receives in a list of actions. -/
def closeCalls (p : Ref) (effects : List Effect) : Nat :=
  effects.count (Effect.targetClose p)

/-- The `Open` calls in a list of actions, in order: the target and whether
the call returned nil. -/
def openLog : List Effect → List (Ref × Bool)
  | [] => []
  | Effect.targetOpen p err :: rest => (p, err.isNone) :: openLog rest
  | _ :: rest => openLog rest

/-- The number of `Open` calls a target receives in a list of actions. -/
def openCalls (p : Ref) (effects : List Effect) : Nat :=
  ((openLog effects).map Prod.fst).count p

/-- Two calls of `Close` one after the other: the core after both and the
actions of each. -/
def core.CloseTwice (c : core) : Outcome (core × List Effect × List Effect) :=
  match c.Close with
  | Outcome.returned (c1, first) =>
    match c1.Close with
    | Outcome.returned (c2, second) => Outcome.returned (c2, first, second)
    | Outcome.panicked => Outcome.panicked
    | Outcome.parked => Outcome.parked
  | Outcome.panicked => Outcome.panicked
  | Outcome.parked => Outcome.parked

/-- The state invariant of the core: while it is open its queue is allocated
and not closed. `Open` sets the queue before the flag, `Close` clears the flag
before closing the queue. -/
def core.wf (c : core) : Prop :=
  c.isOpen = true → ∃ ch, c.entries = some ch ∧ ch.closed = false

/-! ## Log and GetCallStack (logkit.go 319-366) -/

/-- The function `strings.Contains`. -/
def Contains (s substr : String) : Bool :=
  s.data.tails.any (fun t => substr.data.isPrefixOf t)

/-- The loop of `GetCallStack` over the frames from `skip` on, with the number
of frames still to be written. -/
def GetCallStack.loop (filter : String) : List Frame → Nat → String
  | [], _ => ""
  | _ :: _, 0 => ""
  | f :: rest, depth + 1 =>
    if filter = "" ∨ Contains f.file filter then
      "\n" ++ f.file ++ ":" ++ toString f.line ++ GetCallStack.loop filter rest depth
    else
      GetCallStack.loop filter rest (depth + 1)

/-- GetCallStack returns the current call stack information as a string. -/
def GetCallStack (env : Env) (skip : Nat) (maxStackDepth : Int) (filter : String) : String :=
  GetCallStack.loop filter (env.frames.drop skip) maxStackDepth.toNat

/-- What `Log` leaves behind when it returns: the core and the entries handed
to the formatter, in order. -/
structure Logged where
  c : core
  formatted : List Entry
deriving DecidableEq, Repr

/-- The entry `Log` builds before it formats it. -/
def LogKit.newEntry (env : Env) (l : LogKit) (c : Logkit.core) (level : Severity) (format : String)
    (a : List Arg) : Entry :=
  let message := if a.length > 0 then env.Sprintf format a else format
  let entry : Entry :=
    { Severity := level, Category := l.Category, Message := message, Time := env.now,
      CallStack := "", FormattedMessage := "" }
  if c.callStackDepth > 0 then
    { entry with CallStack := GetCallStack env 3 c.callStackDepth c.callStackFilter }
  else entry

/-- The method `func (l *LogKit) Log(level Severity, format string, a ...interface{})`
on the core `c` the handle points to. Calling a nil formatter panics, a send
on a nil channel parks for ever, a send on a closed channel panics. -/
def LogKit.Log (env : Env) (l : LogKit) (c : Logkit.core) (level : Severity) (format : String)
    (a : List Arg) : Outcome Logged :=
  if level > c.maxLevel ∨ ¬ (c.isOpen = true) then
    Outcome.returned { c := c, formatted := [] }
  else
    let entry := l.newEntry env c level format a
    match l.Formatter with
    | none => Outcome.panicked
    | some formatter =>
      let entry' := { entry with FormattedMessage := formatter l.view entry }
      match c.entries with
      | none => Outcome.parked
      | some ch =>
        if ch.closed then Outcome.panicked
        else
          Outcome.returned
            { c := { c with entries := some { ch with buf := ch.buf ++ [entry'] } },
              formatted := [entry] }

/-- The entries waiting in the core's queue. -/
def core.queue (c : core) : List Entry :=
  match c.entries with
  | some ch => ch.buf
  | none => []

/-! ## Shutdown protocol: the goroutines of a core and their channels

`core.Close` runs in the caller's goroutine, `core.process` in the worker
started by `core.Open`, and every opened `NetworkTarget` has its own goroutine
`send`. They meet on the queue `c.entries`, on each target's unbuffered channel
`close`, and on each network target's channel `entries` of capacity 1. -/

/-- The implementation behind a `Target`. -/
inductive Kind where
  | console
  | file
  | network
deriving DecidableEq, Repr

/-- Where the goroutine `NetworkTarget.send` stands: absent (console and file
targets have none), at the receive `<-t.entries`, at the send `t.close <- true`
after it saw the channel closed, or past it. -/
inductive SenderPc where
  | absent
  | recv
  | signal
  | returned
deriving DecidableEq, Repr

/-- An active target during shutdown: its kind, the channel `entries` of a
network target, its goroutine `send`, and the entries it has written out. -/
structure TargetState where
  kind : Kind
  entries : List Entry
  entriesClosed : Bool
  sender : SenderPc
  delivered : List Entry
deriving DecidableEq, Repr

/-- Where `core.Close` stands after `c.open = false`: before `close(c.entries)`,
inside `target.Close()` of the target at index `i` of `c.targets`, or returned. -/
inductive CloserPc where
  | closeEntries
  | target (i : Nat)
  | returned
deriving DecidableEq, Repr

/-- Where `core.process` stands: at the receive `<-c.entries`, inside
`target.Process(entry)` of the target at index `j`, or returned. The entry is
`none` exactly when the receive answered `ok = false`. -/
inductive WorkerPc where
  | recv
  | fanout (entry : Option Entry) (j : Nat)
  | returned
deriving DecidableEq, Repr

/-- The goroutines and channels of one core during `Close`. -/
structure Sys where
  queue : List Entry
  queueClosed : Bool
  targets : List TargetState
  closer : CloserPc
  worker : WorkerPc
deriving DecidableEq, Repr

/-- The goroutines: the caller of `Close`, the worker, the `send` of target `i`. -/
inductive Gid where
  | closer
  | worker
  | sender (i : Nat)
deriving DecidableEq, Repr

/-- An operation on the unbuffered channel `close` of the target at index `i`. -/
inductive Op where
  | send (i : Nat)
  | recv (i : Nat)
deriving DecidableEq, Repr

/-- The list with `f` applied to its element at index `i`. -/
def updateAt : List TargetState → Nat → (TargetState → TargetState) → List TargetState
  | [], _, _ => []
  | t :: rest, 0, f => f t :: rest
  | t :: rest, i + 1, f => t :: updateAt rest i f

/-- The operation on a `close` channel a goroutine is standing at.
`ConsoleTarget.Close` and `FileTarget.Close` receive (`<-t.close`),
`NetworkTarget.Close` sends (`t.close <- true`); `Process(nil)` of a console or
file target sends; `NetworkTarget.send` sends after the closure of `entries`. -/
def Sys.pending (s : Sys) : Gid → Option Op
  | Gid.closer =>
    match s.closer with
    | CloserPc.target i =>
      match s.targets[i]? with
      | some t =>
        match t.kind with
        | Kind.network => some (Op.send i)
        | _ => some (Op.recv i)
      | none => none
    | _ => none
  | Gid.worker =>
    match s.worker with
    | WorkerPc.fanout none j =>
      match s.targets[j]? with
      | some t =>
        match t.kind with
        | Kind.network => none
        | _ => some (Op.send j)
      | none => none
    | _ => none
  | Gid.sender i =>
    match s.targets[i]? with
    | some t => if t.sender = SenderPc.signal then some (Op.send i) else none
    | none => none

/-- The system after a goroutine has completed the operation it stood at. -/
def Sys.advance (s : Sys) : Gid → Sys
  | Gid.closer =>
    match s.closer with
    | CloserPc.target i => { s with closer := CloserPc.target (i + 1) }
    | _ => s
  | Gid.worker =>
    match s.worker with
    | WorkerPc.fanout entry j => { s with worker := WorkerPc.fanout entry (j + 1) }
    | _ => s
  | Gid.sender i =>
    { s with targets := updateAt s.targets i (fun t => { t with sender := SenderPc.returned }) }

/-- All goroutines of the system. -/
def Sys.gids (s : Sys) : List Gid :=
  Gid.closer :: Gid.worker :: (List.range s.targets.length).map Gid.sender

/-- The successor for a pair of goroutines: on an unbuffered channel a send
and a receive complete together, and only together. -/
def Sys.meet (s : Sys) (g h : Gid) : List Sys :=
  match s.pending g, s.pending h with
  | some (Op.send i), some (Op.recv j) => if i = j then [(s.advance g).advance h] else []
  | _, _ => []

/-- Every rendezvous that can happen in `s`. -/
def Sys.rendezvous (s : Sys) : List Sys :=
  (s.gids.map (fun g => (s.gids.map (fun h => s.meet g h)).flatten)).flatten

/-- The steps of `core.Close` on its own: `close(c.entries)`, then the loop over
`c.targets`, and the return after the last target. -/
def Sys.closerSteps (s : Sys) : List Sys :=
  match s.closer with
  | CloserPc.closeEntries => [{ s with queueClosed := true, closer := CloserPc.target 0 }]
  | CloserPc.target i => if s.targets.length ≤ i then [{ s with closer := CloserPc.returned }] else []
  | CloserPc.returned => []

/-- The steps of `core.process` on its own: the receive from the queue, and
`target.Process(entry)` for a console or file target with an entry (it writes
the line), for a network target with an entry (`t.entries <- entry`, which needs
room in the channel) and for a network target with nil (`close(t.entries)`). -/
def Sys.workerSteps (s : Sys) : List Sys :=
  match s.worker with
  | WorkerPc.recv =>
    match s.queue with
    | e :: rest => [{ s with queue := rest, worker := WorkerPc.fanout (some e) 0 }]
    | [] => if s.queueClosed then [{ s with worker := WorkerPc.fanout none 0 }] else []
  | WorkerPc.fanout entry j =>
    match s.targets[j]? with
    | none =>
      match entry with
      | none => [{ s with worker := WorkerPc.returned }]
      | some _ => [{ s with worker := WorkerPc.recv }]
    | some t =>
      match t.kind, entry with
      | Kind.network, some e =>
        if t.entries.length < 1 ∧ t.entriesClosed = false then
          [{ s with
              targets := updateAt s.targets j (fun t => { t with entries := t.entries ++ [e] }),
              worker := WorkerPc.fanout entry (j + 1) }]
        else []
      | Kind.network, none =>
        if t.entriesClosed then []
        else
          [{ s with
              targets := updateAt s.targets j (fun t => { t with entriesClosed := true }),
              worker := WorkerPc.fanout entry (j + 1) }]
      | _, some e =>
        [{ s with
            targets := updateAt s.targets j (fun t => { t with delivered := t.delivered ++ [e] }),
            worker := WorkerPc.fanout entry (j + 1) }]
      | _, none => []
  | WorkerPc.returned => []

/-- The steps of the goroutine `send` of the target at index `i`: it takes an
entry from `t.entries` and writes it, or sees the channel closed and moves on
to `t.close <- true`. -/
def Sys.senderStepsAt (s : Sys) (i : Nat) : List Sys :=
  match s.targets[i]? with
  | some t =>
    match t.sender with
    | SenderPc.recv =>
      match t.entries with
      | e :: rest =>
        [{ s with
            targets := updateAt s.targets i
              (fun t => { t with entries := rest, delivered := t.delivered ++ [e] }) }]
      | [] =>
        if t.entriesClosed then
          [{ s with targets := updateAt s.targets i (fun t => { t with sender := SenderPc.signal }) }]
        else []
    | _ => []
  | none => []

/-- The steps of all `send` goroutines. -/
def Sys.senderSteps (s : Sys) : List Sys :=
  ((List.range s.targets.length).map s.senderStepsAt).flatten

/-- All states the system can be in after one step. -/
def Sys.step (s : Sys) : List Sys :=
  s.closerSteps ++ s.workerSteps ++ s.senderSteps ++ s.rendezvous

/-- The states that the system can reach from `a`. -/
inductive Reach (a : Sys) : Sys → Prop where
  | here : Reach a a
  | next {b c : Sys} : Reach a b → c ∈ b.step → Reach a c

/-- The system when `core.Close` has found the core open and cleared the flag:
the queue holds `queue`, the active targets have the kinds `kinds`, the worker
waits at the queue and every `send` waits at its empty channel. -/
def Sys.start (kinds : List Kind) (queue : List Entry) : Sys :=
  { queue := queue,
    queueClosed := false,
    targets := kinds.map (fun k =>
      { kind := k, entries := [], entriesClosed := false,
        sender := if k = Kind.network then SenderPc.recv else SenderPc.absent,
        delivered := [] }),
    closer := CloserPc.closeEntries,
    worker := WorkerPc.recv }

/-- The kinds of the targets of a system. -/
def Sys.kinds (s : Sys) : List Kind :=
  s.targets.map (fun t => t.kind)

/-- The bound on `core.Close` when the target at index `i` is a network target:
it has not passed that target. -/
def CloserPc.upTo (i : Nat) : CloserPc → Prop
  | CloserPc.closeEntries => True
  | CloserPc.target j => j ≤ i
  | CloserPc.returned => False

/-- The bound on `core.process` when the target at index `j` is a console or
file target whose `Close` is never reached: the worker has not passed the
drain signal for that target. -/
def WorkerPc.upTo (j : Nat) : WorkerPc → Prop
  | WorkerPc.recv => True
  | WorkerPc.fanout (some _) _ => True
  | WorkerPc.fanout none k => k ≤ j
  | WorkerPc.returned => False

/-! ## Sample values -/

/-- A time of day in UTC. -/
def sampleTime : Time :=
  { year := 2021, month := 3, day := 4, hour := 5, minute := 6, second := 7, offset := 0 }

/-- A Linux host on which no address can be dialled and every file opens. -/
def sampleEnv : Env :=
  { GOOS := "linux",
    now := sampleTime,
    frames := [],
    Sprintf := fun format _ => format,
    dial := fun _ _ => some "dial tcp: connect: connection refused",
    abs := fun p => Except.ok p,
    join := fun dir name => dir ++ "/" ++ name,
    openFile := fun _ => none }

/-- The entry of the console scenario before it is formatted: severity Error,
category `app`, message `boom`, no call stack. -/
def boomEntry : Entry :=
  { Severity := SeverityError, Category := "app", Message := "boom", Time := sampleTime,
    CallStack := "", FormattedMessage := "" }

/-- The entry of the console scenario, formatted by `DefaultFormatter`. -/
def boomFormatted : Entry :=
  { boomEntry with FormattedMessage := DefaultFormatter { core := 0, Category := "app" } boomEntry }

/-- An entry whose category holds a closing bracket. -/
def bracketEntry : Entry :=
  { Severity := SeverityError, Category := "a] b", Message := "c", Time := sampleTime,
    CallStack := "", FormattedMessage := "" }

/-- An entry whose message holds a closing bracket. -/
def plainEntry : Entry :=
  { Severity := SeverityError, Category := "a", Message := "b] c", Time := sampleTime,
    CallStack := "", FormattedMessage := "" }

/-- A heap in which pointer 0 is a network target with no address, pointer 1 a
console target without a writer, and every other pointer a fresh console target. -/
def sampleHeap : Heap :=
  fun p =>
    if p = 0 then Target.network { NewNetworkTarget with Network := "tcp" }
    else if p = 1 then Target.console { NewConsoleTarget with Writer := none }
    else Target.console NewConsoleTarget

/-- A closed core configured with the single network target at pointer 0. -/
def networkCore : core :=
  (NewLogKitByOptions 0 [WithCallStackDepth 0, WithBuffer 1, WithTargets [0]]).2

/-- A core that has been opened with one console target. -/
def openedCore : core :=
  ((NewLogKitByOptions 0 [WithCallStackDepth 0, WithBuffer 1, WithTargets [2]]).2.Open
    sampleEnv sampleHeap).c

/-- A handle of `openedCore` made by `Copy` with a nil formatter. -/
def copiedHandle : LogKit :=
  (NewLogKit 0).1.Copy "app" none

/-- The state in which the shutdown of a core with one network target ends:
the queue is closed, the worker has returned, `send` stands at
`t.close <- true` and so does `NetworkTarget.Close`. -/
def networkStuck : Sys :=
  { queue := [],
    queueClosed := true,
    targets := [{ kind := Kind.network, entries := [], entriesClosed := true,
                  sender := SenderPc.signal, delivered := [] }],
    closer := CloserPc.target 0,
    worker := WorkerPc.returned }

/-- The state in which the shutdown of a core with one console target and the
queue `[boomFormatted]` ends: everything has returned, the entry is written. -/
def consoleDone : Sys :=
  { queue := [],
    queueClosed := true,
    targets := [{ kind := Kind.console, entries := [], entriesClosed := false,
                  sender := SenderPc.absent, delivered := [boomFormatted] }],
    closer := CloserPc.returned,
    worker := WorkerPc.returned }

/-- The state in which the shutdown of a core with a network target followed by
a console target ends: `NetworkTarget.Close` stands at `t.close <- true`, the
worker stands at `t.close <- true` inside `Process(nil)` of the console target,
whose `Close` has not been called. -/
def mixedStuck : Sys :=
  { queue := [],
    queueClosed := true,
    targets := [{ kind := Kind.network, entries := [], entriesClosed := true,
                  sender := SenderPc.signal, delivered := [] },
                { kind := Kind.console, entries := [], entriesClosed := false,
                  sender := SenderPc.absent, delivered := [] }],
    closer := CloserPc.target 0,
    worker := WorkerPc.fanout none 1 }

/-! # Theorems -/

/-! ## Formatting -/

theorem Severity.String_unknown (s : Int) (h : s < 0 ∨ 7 < s) : Severity.String s = "Unknown" := by
  have h0 : (s == 0) = false := by simp; omega
  have h1 : (s == 1) = false := by simp; omega
  have h2 : (s == 2) = false := by simp; omega
  have h3 : (s == 3) = false := by simp; omega
  have h4 : (s == 4) = false := by simp; omega
  have h5 : (s == 5) = false := by simp; omega
  have h6 : (s == 6) = false := by simp; omega
  have h7 : (s == 7) = false := by simp; omega
  simp only [Severity.String, SeverityName, List.lookup, SeverityEmergency, SeverityAlert,
    SeverityCritical, SeverityError, SeverityWarning, SeverityNotice, SeverityInfo,
    SeverityDebug, h0, h1, h2, h3, h4, h5, h6, h7]

theorem Severity.String_mem (s : Int) : Severity.String s ∈
    ["Emergency", "Alert", "Critical", "Error", "Warning", "Notice", "Info", "Debug",
      "Unknown"] := by
  by_cases h : s < 0 ∨ 7 < s
  · rw [Severity.String_unknown s h]; decide
  · have : s = 0 ∨ s = 1 ∨ s = 2 ∨ s = 3 ∨ s = 4 ∨ s = 5 ∨ s = 6 ∨ s = 7 := by omega
    rcases this with h | h | h | h | h | h | h | h <;> subst h <;> decide

theorem Severity.String_no_bracket (s : Int) : ']' ∉ (Severity.String s).data := by
  have h := Severity.String_mem s
  simp only [List.mem_cons, List.mem_singleton, List.not_mem_nil, or_false] at h
  rcases h with h | h | h | h | h | h | h | h | h <;> rw [h] <;> decide

theorem DefaultFormatter_eq (l : LogKitView) (e : Entry) :
    DefaultFormatter l e =
      e.Time.Format Layout.RFC3339 ++ " [" ++ Severity.String e.Severity ++ "][" ++
        e.Category ++ "] " ++ e.Message ++ e.CallStack := by
  simp [DefaultFormatter, Sprintf, Sprintf.scan]
  apply String.ext
  simp [String.data_append]

theorem digitChar_ne_bracket (n : Nat) : Nat.digitChar (n % 10) ≠ '[' := by
  have h : n % 10 < 10 := Nat.mod_lt _ (by decide)
  generalize n % 10 = d at h
  interval_cases d <;> decide

theorem toDigitsCore_no_bracket (fuel : Nat) :
    ∀ (n : Nat) (ds : List Char), '[' ∉ ds → '[' ∉ Nat.toDigitsCore 10 fuel n ds := by
  induction fuel with
  | zero => intro n ds h; simpa [Nat.toDigitsCore] using h
  | succ f ih =>
    intro n ds h
    have hd : '[' ∉ Nat.digitChar (n % 10) :: ds := by
      simp only [List.mem_cons, not_or]
      exact ⟨fun e => digitChar_ne_bracket _ e.symm, h⟩
    simp only [Nat.toDigitsCore]
    split
    · exact hd
    · exact ih _ _ hd

theorem appendInt_no_bracket (x : Int) (width : Nat) : '[' ∉ (appendInt x width).data := by
  have hd : '[' ∉ Nat.toDigits 10 x.natAbs := toDigitsCore_no_bracket _ _ _ (by simp)
  simp only [appendInt, List.mem_append, not_or]
  refine ⟨?_, ?_, hd⟩
  · split <;> simp
  · intro h
    have := List.eq_of_mem_replicate h
    exact absurd this (by decide)

theorem formatZone_no_bracket (offset : Int) : '[' ∉ (formatZone offset).data := by
  unfold formatZone
  split
  · decide
  · simp only [String.data_append, List.mem_append, not_or]
    refine ⟨⟨⟨?_, appendInt_no_bracket _ _⟩, by decide⟩, appendInt_no_bracket _ _⟩
    split <;> decide

theorem Format_no_bracket (t : Time) : '[' ∉ (t.Format Layout.RFC3339).data := by
  simp only [Time.Format, String.data_append, List.mem_append, not_or]
  refine ⟨⟨⟨⟨⟨⟨⟨⟨⟨⟨⟨appendInt_no_bracket _ _, by decide⟩, appendInt_no_bracket _ _⟩, by decide⟩,
    appendInt_no_bracket _ _⟩, by decide⟩, appendInt_no_bracket _ _⟩, by decide⟩,
    appendInt_no_bracket _ _⟩, by decide⟩, appendInt_no_bracket _ _⟩, formatZone_no_bracket _⟩

theorem split_at_first (c : Char) :
    ∀ (a b r q : List Char), c ∉ a → c ∉ b → a ++ c :: r = b ++ c :: q → a = b ∧ r = q := by
  intro a
  induction a with
  | nil =>
    intro b r q _ hb h
    cases b with
    | nil => simpa using h
    | cons y ys =>
      simp only [List.nil_append, List.cons_append, List.cons.injEq] at h
      exact absurd (h.1 ▸ List.mem_cons_self _ _) hb
  | cons x xs ih =>
    intro b r q ha hb h
    cases b with
    | nil =>
      simp only [List.nil_append, List.cons_append, List.cons.injEq] at h
      exact absurd (h.1 ▸ List.mem_cons_self _ _) ha
    | cons y ys =>
      simp only [List.cons_append, List.cons.injEq] at h
      have ha2 : c ∉ xs := fun m => ha (List.mem_cons_of_mem _ m)
      have hb2 : c ∉ ys := fun m => hb (List.mem_cons_of_mem _ m)
      obtain ⟨h1, h2⟩ := ih ys r q ha2 hb2 h.2
      exact ⟨by rw [h.1, h1], h2⟩

theorem parse_line (ts ts2 sv sv2 cat cat2 m m2 : List Char)
    (hts : '[' ∉ ts) (hts2 : '[' ∉ ts2) (hsv : ']' ∉ sv) (hsv2 : ']' ∉ sv2)
    (hcat : ']' ∉ cat) (hcat2 : ']' ∉ cat2)
    (h : ts ++ (' ' :: '[' :: (sv ++ (']' :: '[' :: (cat ++ (']' :: ' ' :: m))))) =
         ts2 ++ (' ' :: '[' :: (sv2 ++ (']' :: '[' :: (cat2 ++ (']' :: ' ' :: m2)))))) :
    ts = ts2 ∧ sv = sv2 ∧ cat = cat2 ∧ m = m2 := by
  have h1 : (ts ++ [' ']) ++ '[' :: (sv ++ (']' :: '[' :: (cat ++ (']' :: ' ' :: m)))) =
      (ts2 ++ [' ']) ++ '[' :: (sv2 ++ (']' :: '[' :: (cat2 ++ (']' :: ' ' :: m2)))) := by
    simpa using h
  have n1 : '[' ∉ ts ++ [' '] := by
    simp only [List.mem_append, List.mem_singleton, not_or]; exact ⟨hts, by decide⟩
  have n2 : '[' ∉ ts2 ++ [' '] := by
    simp only [List.mem_append, List.mem_singleton, not_or]; exact ⟨hts2, by decide⟩
  obtain ⟨a1, r1⟩ := split_at_first '[' _ _ _ _ n1 n2 h1
  obtain ⟨a2, r2⟩ := split_at_first ']' _ _ _ _ hsv hsv2 r1
  have r3 : cat ++ (']' :: ' ' :: m) = cat2 ++ (']' :: ' ' :: m2) := by
    simpa using r2
  obtain ⟨a3, r4⟩ := split_at_first ']' _ _ _ _ hcat hcat2 r3
  refine ⟨List.append_cancel_right a1, a2, a3, ?_⟩
  simpa using r4

/-- Claim C5, as amended: for two entries with empty call-stack text whose
categories hold no closing bracket, equal `DefaultFormatter` texts give equal
RFC3339 timestamp texts, equal severity names, equal categories and equal
messages, whatever the messages are. -/
theorem DefaultFormatter_injective (l1 l2 : LogKitView) (e1 e2 : Entry)
    (hs1 : e1.CallStack = "") (hs2 : e2.CallStack = "")
    (hc1 : ']' ∉ e1.Category.data) (hc2 : ']' ∉ e2.Category.data)
    (h : DefaultFormatter l1 e1 = DefaultFormatter l2 e2) :
    e1.Time.Format Layout.RFC3339 = e2.Time.Format Layout.RFC3339 ∧
      Severity.String e1.Severity = Severity.String e2.Severity ∧
      e1.Category = e2.Category ∧ e1.Message = e2.Message := by
  rw [DefaultFormatter_eq, DefaultFormatter_eq, hs1, hs2] at h
  have hd := congrArg String.data h
  simp only [String.data_append, List.append_assoc] at hd
  have key := parse_line _ _ _ _ _ _ _ _ (Format_no_bracket e1.Time) (Format_no_bracket e2.Time)
    (Severity.String_no_bracket e1.Severity) (Severity.String_no_bracket e2.Severity) hc1 hc2
    (by simpa using hd)
  exact ⟨String.ext key.1, String.ext key.2.1, String.ext key.2.2.1, String.ext key.2.2.2⟩

theorem DefaultFormatter_injective_witness :
    sampleTime.Format Layout.RFC3339 = sampleTime.Format Layout.RFC3339 ∧
      Severity.String boomEntry.Severity = Severity.String boomEntry.Severity ∧
      boomEntry.Category = boomEntry.Category ∧ boomEntry.Message = boomEntry.Message :=
  DefaultFormatter_injective { core := 0, Category := "app" } { core := 1, Category := "db" }
    boomEntry boomEntry rfl rfl (by decide) (by decide) rfl

/-- Claim C5, as stated, fails: the entry with category `a] b` and message `c`
and the entry with category `a` and message `b] c` have empty call stacks and
the same `DefaultFormatter` text. -/
theorem DefaultFormatter_collision :
    bracketEntry.CallStack = "" ∧ plainEntry.CallStack = "" ∧
      DefaultFormatter { core := 0, Category := "app" } bracketEntry =
        DefaultFormatter { core := 0, Category := "app" } plainEntry ∧
      bracketEntry.Category ≠ plainEntry.Category ∧
      bracketEntry.Message ≠ plainEntry.Message := by
  decide

/-- Claim C6: `DefaultFormatter` returns the RFC3339 text of the time, ` [`, the
severity name, `][`, the category, `] `, the message and the call stack, in
this order; severities 0 to 7 are named Emergency, Alert, Critical, Error,
Warning, Notice, Info, Debug and every other integer Unknown; the handle does
not influence the result. -/
theorem DefaultFormatter_text :
    (∀ (l : LogKitView) (e : Entry),
      DefaultFormatter l e =
        e.Time.Format Layout.RFC3339 ++ " [" ++ Severity.String e.Severity ++ "][" ++
          e.Category ++ "] " ++ e.Message ++ e.CallStack) ∧
    (Severity.String 0 = "Emergency" ∧ Severity.String 1 = "Alert" ∧
      Severity.String 2 = "Critical" ∧ Severity.String 3 = "Error" ∧
      Severity.String 4 = "Warning" ∧ Severity.String 5 = "Notice" ∧
      Severity.String 6 = "Info" ∧ Severity.String 7 = "Debug") ∧
    (∀ s : Int, (s < 0 ∨ 7 < s) → Severity.String s = "Unknown") ∧
    (∀ (l1 l2 : LogKitView) (e : Entry), DefaultFormatter l1 e = DefaultFormatter l2 e) :=
  ⟨DefaultFormatter_eq, by decide, Severity.String_unknown, fun _ _ _ => rfl⟩

/-! ## Log -/

theorem queue_append_ne (q : List Entry) (e : Entry) : q ≠ q ++ [e] := by
  intro h
  have := congrArg List.length h
  simp at this

/-- `Log` through a handle whose formatter is set, on a core that satisfies the
state invariant: it returns; the queue gains exactly one entry if and only if
the core is open and `level <= maxLevel`, and then the formatter is called
once, on the entry built from the arguments, and the entry placed last on the
queue carries its result; otherwise the core is unchanged and the formatter is
not called. -/
theorem Log_enqueues_iff (env : Env) (l : LogKit) (c : core) (level : Severity) (format : String)
    (a : List Arg) (f : Formatter) (hf : l.Formatter = some f) (hwf : c.wf) :
    ∃ r, l.Log env c level format a = Outcome.returned r ∧
      ((∃ e, r.c.queue = c.queue ++ [e]) ↔ (c.isOpen = true ∧ level ≤ c.maxLevel)) ∧
      (c.isOpen = true ∧ level ≤ c.maxLevel →
        r.formatted = [l.newEntry env c level format a] ∧
        r.c.queue = c.queue ++
          [{ l.newEntry env c level format a with
              FormattedMessage := f l.view (l.newEntry env c level format a) }] ∧
        (l.newEntry env c level format a).Severity = level ∧
        (l.newEntry env c level format a).Category = l.Category ∧
        r.c.isOpen = true ∧ r.c.targets = c.targets ∧ r.c.maxLevel = c.maxLevel) ∧
      (¬ (c.isOpen = true ∧ level ≤ c.maxLevel) → r.c = c ∧ r.formatted = []) := by
  by_cases hcond : c.isOpen = true ∧ level ≤ c.maxLevel
  · obtain ⟨ch, hch, hcl⟩ := hwf hcond.1
    have hguard : ¬ (level > c.maxLevel ∨ ¬ (c.isOpen = true)) := by
      intro h
      rcases h with h | h
      · exact absurd hcond.2 (not_le.mpr h)
      · exact h hcond.1
    refine ⟨⟨{ c with entries := some { ch with buf := ch.buf ++
        [{ l.newEntry env c level format a with
            FormattedMessage := f l.view (l.newEntry env c level format a) }] } },
        [l.newEntry env c level format a]⟩, ?_, ?_, ?_, ?_⟩
    · simp only [LogKit.Log, if_neg hguard, hf, hch, hcl]
      rfl
    · simp only [core.queue, hch]
      exact ⟨fun _ => hcond, fun _ => ⟨_, rfl⟩⟩
    · intro _
      refine ⟨rfl, ?_, ?_, ?_, hcond.1, rfl, rfl⟩
      · simp only [core.queue, hch]
      · simp only [LogKit.newEntry]; split <;> rfl
      · simp only [LogKit.newEntry]; split <;> rfl
    · intro h; exact absurd hcond h
  · have hguard : level > c.maxLevel ∨ ¬ (c.isOpen = true) := by
      by_cases ho : c.isOpen = true
      · left
        exact not_le.mp (fun h => hcond ⟨ho, h⟩)
      · right; exact ho
    refine ⟨{ c := c, formatted := [] }, ?_, ?_, ?_, ?_⟩
    · simp only [LogKit.Log, if_pos hguard]
    · constructor
      · rintro ⟨e, he⟩
        exact absurd he (queue_append_ne _ _)
      · intro h; exact absurd h hcond
    · intro h; exact absurd h hcond
    · intro _; exact ⟨rfl, rfl⟩

theorem Log_enqueues_iff_witness :
    ∃ r, (NewLogKit 0).1.Log sampleEnv openedCore SeverityError "boom" [] = Outcome.returned r ∧
      ((∃ e, r.c.queue = openedCore.queue ++ [e]) ↔
        (openedCore.isOpen = true ∧ SeverityError ≤ openedCore.maxLevel)) :=
  have h := Log_enqueues_iff sampleEnv (NewLogKit 0).1 openedCore SeverityError "boom" []
    DefaultFormatter rfl (fun _ => ⟨_, rfl, rfl⟩)
  ⟨h.choose, h.choose_spec.1, h.choose_spec.2.1⟩

/-- Claim C1, on the code: the handle `Copy("app", nil)` of an open core has a
nil formatter, because `Copy` does not put `DefaultFormatter` in its place as
its comment says; with severity Error, which passes the threshold, `Log`
through that handle panics at the call of the formatter and places nothing on
the queue, where the claim has it place exactly one entry. -/
theorem Log_nil_formatter_panics :
    openedCore.isOpen = true ∧ SeverityError ≤ openedCore.maxLevel ∧
      copiedHandle.Formatter.isNone = true ∧
      copiedHandle.Log sampleEnv openedCore SeverityError "boom" [] = Outcome.panicked := by
  decide

/-! ## The state invariant -/

theorem wf_NewLogKit (r : Ref) : (NewLogKit r).2.wf := by
  intro h; simp [NewLogKit] at h

theorem wf_Open (env : Env) (c : core) (heap : Heap) (h : c.wf) : (c.Open env heap).c.wf := by
  unfold core.Open
  split
  · exact h
  · split
    · exact h
    · split
      · exact h
      · split
        · exact h
        · intro _; exact ⟨_, rfl, rfl⟩

theorem wf_Close (c c1 : core) (effects : List Effect)
    (h : c.Close = Outcome.returned (c1, effects)) : c1.wf := by
  unfold core.Close at h
  split at h
  · rename_i hopen
    simp only [Outcome.returned.injEq, Prod.mk.injEq] at h
    intro ho
    rw [← h.1] at ho
    simp [ho] at hopen
  · split at h
    · cases h
    · split at h
      · cases h
      · simp only [Outcome.returned.injEq, Prod.mk.injEq] at h
        intro ho
        rw [← h.1] at ho
        cases ho

theorem wf_Log (env : Env) (l : LogKit) (c : core) (level : Severity) (format : String)
    (a : List Arg) (r : Logged) (h : c.wf)
    (hr : l.Log env c level format a = Outcome.returned r) : r.c.wf := by
  unfold LogKit.Log at hr
  split at hr
  · cases hr; exact h
  · split at hr
    · cases hr
    · split at hr
      · cases hr
      · split at hr
        · cases hr
        · rename_i hcl
          cases hr
          intro _
          exact ⟨_, rfl, by simpa using hcl⟩

/-! ## core.Open -/

/-- Claim C3: `core.Open` returns an error exactly when the core is not open and
the error writer is nil or the buffer size or the call-stack depth is negative;
then the core, the queue and the targets are untouched and nothing is started;
on an open core it returns nil and changes nothing; in every other case it
returns nil and leaves the core open. -/
theorem core_Open_error_iff (env : Env) (c : core) (heap : Heap) :
    ((c.Open env heap).err.isSome = true ↔
      (c.isOpen = false ∧ (c.errorWriter = none ∨ c.bufferSize < 0 ∨ c.callStackDepth < 0))) ∧
    ((c.Open env heap).err.isSome = true →
      (c.Open env heap).c = c ∧ (c.Open env heap).c.isOpen = false ∧
      (c.Open env heap).heap = heap ∧ (c.Open env heap).effects = []) ∧
    (c.isOpen = true →
      (c.Open env heap).err = none ∧ (c.Open env heap).c = c ∧
      (c.Open env heap).heap = heap ∧ (c.Open env heap).effects = []) ∧
    (c.isOpen = false → c.errorWriter ≠ none → 0 ≤ c.bufferSize → 0 ≤ c.callStackDepth →
      (c.Open env heap).err = none ∧ (c.Open env heap).c.isOpen = true) := by
  cases ho : c.isOpen with
  | true =>
    have h : c.Open env heap = { err := none, c := c, heap := heap, effects := [] } := by
      simp [core.Open, ho]
    simp [h]
  | false =>
    cases hw : c.errorWriter with
    | none =>
      have h : c.Open env heap =
          { err := some "LogKit.ErrorWriter must be set. ", c := c, heap := heap,
            effects := [] } := by
        simp [core.Open, ho, hw]
      simp [h, ho]
    | some w =>
      by_cases hb : c.bufferSize < 0
      · have h : c.Open env heap =
            { err := some "LogKit.BufferSize must be no less than 0. ", c := c, heap := heap,
              effects := [] } := by
          simp [core.Open, ho, hw, hb]
        simp [h, ho, hb]
      · by_cases hd : c.callStackDepth < 0
        · have h : c.Open env heap =
              { err := some "Logger.CallStackDepth must be no less than 0. ", c := c,
                heap := heap, effects := [] } := by
            simp [core.Open, ho, hw, hb, hd]
          simp [h, ho, hd]
        · have h1 : (c.Open env heap).err = none := by
            simp [core.Open, ho, hw, hb, hd]
          have h2 : (c.Open env heap).c.isOpen = true := by
            simp [core.Open, ho, hw, hb, hd]
          simp [h1, h2, hb, hd]

/-! ## The targets of core.Open -/

theorem openLog_append (xs ys : List Effect) :
    openLog (xs ++ ys) = openLog xs ++ openLog ys := by
  induction xs with
  | nil => rfl
  | cons x xs ih => cases x <;> simp [openLog, ih]

theorem openTarget_spec (env : Env) (w : Writer) (st : OpenLoop) (p : Ref) :
    (core.openTarget env w st p).targets =
        st.targets ++ (if ((st.heap p).Open env w).2.isNone then [p] else []) ∧
      openLog (core.openTarget env w st p).effects =
        openLog st.effects ++ [(p, ((st.heap p).Open env w).2.isNone)] ∧
      (core.openTarget env w st p).heap = st.heap.set p ((st.heap p).Open env w).1 := by
  unfold core.openTarget
  rcases h : (st.heap p).Open env w with ⟨t, err⟩
  cases err <;> simp [openLog_append, openLog]

theorem openFold_log (env : Env) (w : Writer) (ps : List Ref) :
    ∀ st : OpenLoop,
      (openLog (ps.foldl (core.openTarget env w) st).effects).map Prod.fst =
          (openLog st.effects).map Prod.fst ++ ps ∧
        (st.targets = ((openLog st.effects).filter (fun x => x.2)).map Prod.fst →
          (ps.foldl (core.openTarget env w) st).targets =
            ((openLog (ps.foldl (core.openTarget env w) st).effects).filter
              (fun x => x.2)).map Prod.fst) := by
  induction ps with
  | nil => intro st; simp
  | cons p ps ih =>
    intro st
    obtain ⟨h1, h2, _⟩ := openTarget_spec env w st p
    obtain ⟨i1, i2⟩ := ih (core.openTarget env w st p)
    refine ⟨?_, ?_⟩
    · simp only [List.foldl_cons, i1, h2]; simp
    · intro hst
      simp only [List.foldl_cons]
      apply i2
      rw [h1, h2, hst]
      cases ((st.heap p).Open env w).2.isNone <;> simp [List.filter_append]

theorem openFold_nodup (env : Env) (w : Writer) (ps : List Ref) :
    ∀ st : OpenLoop, ps.Nodup →
      (ps.foldl (core.openTarget env w) st).targets =
        st.targets ++ ps.filter (fun p => ((st.heap p).Open env w).2.isNone) := by
  induction ps with
  | nil => intro st _; simp
  | cons p ps ih =>
    intro st hnd
    obtain ⟨h1, _, h3⟩ := openTarget_spec env w st p
    have hp : p ∉ ps := (List.nodup_cons.mp hnd).1
    have hps : ps.Nodup := (List.nodup_cons.mp hnd).2
    simp only [List.foldl_cons]
    rw [ih _ hps, h1, h3]
    have hfilter : ps.filter (fun q =>
          (((st.heap.set p ((st.heap p).Open env w).1) q).Open env w).2.isNone) =
        ps.filter (fun q => ((st.heap q).Open env w).2.isNone) := by
      apply List.filter_congr
      intro q hq
      have hne : q ≠ p := fun e => hp (e ▸ hq)
      simp [Heap.set, hne]
    rw [hfilter, List.filter_cons]
    cases ((st.heap p).Open env w).2.isNone <;> simp

theorem NetworkTarget_Open_fails (env : Env) (w : Writer) (t : NetworkTarget)
    (h : t.Network = "" ∨ t.Address = "" ∨ (env.dial t.Network t.Address).isSome = true) :
    ((Target.network t).Open env w).2.isNone = false := by
  simp only [Target.Open, NetworkTarget.Open]
  by_cases hn : t.Network = ""
  · simp [hn]
  · by_cases ha : t.Address = ""
    · simp [hn, ha]
    · have hdial : (env.dial t.Network t.Address).isSome = true := by
        rcases h with h | h | h
        · exact absurd h hn
        · exact absurd h ha
        · exact h
      obtain ⟨err, herr⟩ := Option.isSome_iff_exists.mp hdial
      simp [hn, ha, NetworkTarget.connect, herr]

/-- Claim C4: on a closed core with a valid configuration `core.Open` calls
`Open` on the configured targets in order, once for each place in the list,
keeps exactly those whose call returned nil, in their order, returns nil and
marks the core open, however many targets failed; a single network target
with an empty network or address, or one that cannot be dialled, leaves the
list of active targets empty. -/
theorem core_Open_targets (env : Env) (c : core) (heap : Heap) (w : Writer)
    (hclosed : c.isOpen = false) (hw : c.errorWriter = some w)
    (hb : 0 ≤ c.bufferSize) (hd : 0 ≤ c.callStackDepth) :
    (c.Open env heap).err = none ∧ (c.Open env heap).c.isOpen = true ∧
      (openLog (c.Open env heap).effects).map Prod.fst = c.targets ∧
      (c.Open env heap).c.targets =
        ((openLog (c.Open env heap).effects).filter (fun x => x.2)).map Prod.fst ∧
      (c.Open env heap).c.targets.Sublist c.targets ∧
      (∀ p, openCalls p (c.Open env heap).effects = c.targets.count p) ∧
      (c.targets.Nodup →
        (c.Open env heap).c.targets =
            c.targets.filter (fun p => ((heap p).Open env w).2.isNone) ∧
          ∀ p ∈ c.targets, openCalls p (c.Open env heap).effects = 1) ∧
      (∀ p t, c.targets = [p] → heap p = Target.network t →
        (t.Network = "" ∨ t.Address = "" ∨ (env.dial t.Network t.Address).isSome = true) →
        (c.Open env heap).c.targets = []) := by
  have hb2 : ¬ c.bufferSize < 0 := not_lt.mpr hb
  have hd2 : ¬ c.callStackDepth < 0 := not_lt.mpr hd
  obtain ⟨f1, f2⟩ := openFold_log env w c.targets
    { targets := [], heap := heap, effects := [Effect.makeChan c.bufferSize] }
  have f3 := openFold_nodup env w c.targets
    { targets := [], heap := heap, effects := [Effect.makeChan c.bufferSize] }
  have e1 : (c.Open env heap).err = none := by simp [core.Open, hclosed, hw, hb2, hd2]
  have e2 : (c.Open env heap).c.isOpen = true := by simp [core.Open, hclosed, hw, hb2, hd2]
  have e3 : (c.Open env heap).c.targets =
      (c.targets.foldl (core.openTarget env w)
        { targets := [], heap := heap, effects := [Effect.makeChan c.bufferSize] }).targets := by
    simp [core.Open, hclosed, hw, hb2, hd2]
  have e4 : openLog (c.Open env heap).effects =
      openLog (c.targets.foldl (core.openTarget env w)
        { targets := [], heap := heap, effects := [Effect.makeChan c.bufferSize] }).effects := by
    simp [core.Open, hclosed, hw, hb2, hd2, openLog_append, openLog]
  have g1 : (openLog (c.Open env heap).effects).map Prod.fst = c.targets := by
    rw [e4, f1]; simp [openLog]
  have g2 : (c.Open env heap).c.targets =
      ((openLog (c.Open env heap).effects).filter (fun x => x.2)).map Prod.fst := by
    rw [e3, e4]; exact f2 (by simp [openLog])
  have g3 : ∀ p, openCalls p (c.Open env heap).effects = c.targets.count p := by
    intro p; simp only [openCalls, g1]
  have g4 : c.targets.Nodup → (c.Open env heap).c.targets =
      c.targets.filter (fun p => ((heap p).Open env w).2.isNone) := by
    intro hnd; rw [e3, f3 hnd]; simp
  refine ⟨e1, e2, g1, g2, ?_, g3, ?_, ?_⟩
  · rw [g2]
    have := (List.filter_sublist (openLog (c.Open env heap).effects)
      (p := fun x => x.2)).map Prod.fst
    rwa [g1] at this
  · intro hnd
    refine ⟨g4 hnd, ?_⟩
    intro p hp
    rw [g3 p]
    exact List.count_eq_one_of_mem hnd hp
  · intro p t hps hheap hfail
    have hnd : c.targets.Nodup := by rw [hps]; simp
    rw [g4 hnd, hps]
    have := NetworkTarget_Open_fails env w t hfail
    simp [hheap, this]

theorem core_Open_targets_witness :
    (networkCore.Open sampleEnv sampleHeap).err = none ∧
      (networkCore.Open sampleEnv sampleHeap).c.isOpen = true ∧
      (networkCore.Open sampleEnv sampleHeap).c.targets = [] :=
  have h := core_Open_targets sampleEnv networkCore sampleHeap Stderr rfl rfl
    (by decide) (by decide)
  ⟨h.1, h.2.1, h.2.2.2.2.2.2.2 0 { NewNetworkTarget with Network := "tcp" } rfl rfl
    (Or.inr (Or.inl rfl))⟩

/-! ## core.Close -/

theorem closeCalls_map (p : Ref) (ts : List Ref) :
    closeCalls p (ts.map Effect.targetClose) = ts.count p := by
  induction ts with
  | nil => rfl
  | cons t ts ih =>
    simp only [closeCalls] at ih
    by_cases h : t = p
    · subst h; simp [closeCalls, ih]
    · have h2 : ¬ (Effect.targetClose t = Effect.targetClose p) := by
        intro e; injection e with e; exact h e
      simp [closeCalls, List.count_cons, h, h2, ih]

/-- Claim C9: a second `Close` right after the first returns at once, leaves the
core as the first left it, closes no queue and calls `Close` on no target; over
both calls each active target is closed once for each place it holds in the
list when the core was open, and never when it was not. -/
theorem core_Close_idempotent (c : core) (hwf : c.wf) :
    ∃ c1 first,
      c.Close = Outcome.returned (c1, first) ∧
      c1.Close = Outcome.returned (c1, []) ∧
      c.CloseTwice = Outcome.returned (c1, first, []) ∧
      c1.isOpen = false ∧
      (c.isOpen = true → first = Effect.closeEntries :: c.targets.map Effect.targetClose) ∧
      (c.isOpen = false → first = [] ∧ c1 = c) ∧
      (∀ p, closeCalls p (first ++ []) = if c.isOpen = true then c.targets.count p else 0) ∧
      (c.isOpen = true → c.targets.Nodup → ∀ p ∈ c.targets, closeCalls p (first ++ []) = 1) := by
  cases ho : c.isOpen with
  | false =>
    have h1 : c.Close = Outcome.returned (c, []) := by simp [core.Close, ho]
    refine ⟨c, [], h1, h1, ?_, ho, ?_, ?_, ?_, ?_⟩
    · simp [core.CloseTwice, h1]
    · intro h; cases h
    · intro _; exact ⟨rfl, rfl⟩
    · intro p; simp [closeCalls]
    · intro h; cases h
  | true =>
    obtain ⟨ch, hch, hcl⟩ := hwf ho
    have h1 : c.Close = Outcome.returned
        ({ c with isOpen := false, entries := some { ch with closed := true } },
          Effect.closeEntries :: c.targets.map Effect.targetClose) := by
      simp [core.Close, ho, hch, hcl]
    have h2 : ({ c with isOpen := false, entries := some { ch with closed := true } } : core).Close
        = Outcome.returned
          ({ c with isOpen := false, entries := some { ch with closed := true } }, []) := by
      simp [core.Close]
    have hcount : ∀ p, closeCalls p
        ((Effect.closeEntries :: c.targets.map Effect.targetClose) ++ []) = c.targets.count p := by
      intro p
      have := closeCalls_map p c.targets
      simp only [closeCalls] at this
      simp [closeCalls, this]
    refine ⟨_, _, h1, h2, ?_, rfl, ?_, ?_, ?_, ?_⟩
    · simp [core.CloseTwice, h1, h2]
    · intro _; rfl
    · intro h; cases h
    · intro p; simp only [hcount p]; simp
    · intro _ hnd p hp
      rw [hcount p]
      exact List.count_eq_one_of_mem hnd hp

theorem core_Close_idempotent_witness :
    ∃ c1 first,
      openedCore.Close = Outcome.returned (c1, first) ∧
      c1.Close = Outcome.returned (c1, []) ∧
      openedCore.CloseTwice = Outcome.returned (c1, first, []) :=
  have h := core_Close_idempotent openedCore (fun _ => ⟨_, rfl, rfl⟩)
  ⟨h.choose, h.choose_spec.choose, h.choose_spec.choose_spec.1, h.choose_spec.choose_spec.2.1,
    h.choose_spec.choose_spec.2.2.1⟩

/-! ## core.process, one call after the other -/

theorem core_process_calls (targets : List Ref) (cap : Nat) :
    ∀ (es : List Entry) (fuel : Nat), es.length + 1 ≤ fuel →
      core.process fuel targets { cap := cap, buf := es, closed := true } =
        some ((es.map (fun e => targets.map (fun t => Effect.targetProcess t (some e)))).flatten
          ++ targets.map (fun t => Effect.targetProcess t none)) := by
  intro es
  induction es with
  | nil =>
    intro fuel hf
    obtain ⟨n, rfl⟩ : ∃ n, fuel = n + 1 := ⟨fuel - 1, by omega⟩
    simp [core.process, Chan.recv]
  | cons e es ih =>
    intro fuel hf
    obtain ⟨n, rfl⟩ : ∃ n, fuel = n + 1 := ⟨fuel - 1, by omega⟩
    have hn : es.length + 1 ≤ n := by simp at hf; omega
    simp [core.process, Chan.recv, ih n hn]

theorem observed_append (p : Ref) (xs ys : List Effect) :
    observed p (xs ++ ys) = observed p xs ++ observed p ys := by
  induction xs with
  | nil => rfl
  | cons x xs ih =>
    cases x <;> simp [observed, ih]
    split <;> simp

theorem observed_fanout (p : Ref) (entry : Option Entry) (targets : List Ref) :
    observed p (targets.map (fun t => Effect.targetProcess t entry)) =
      List.replicate (targets.count p) entry := by
  induction targets with
  | nil => rfl
  | cons t ts ih =>
    by_cases h : t = p
    · subst h; simp [observed, ih, List.replicate_succ]
    · simp [observed, ih, h, List.count_cons]

theorem observed_process (targets : List Ref) (p : Ref) (hp : targets.count p = 1)
    (es : List Entry) :
    observed p
        ((es.map (fun e => targets.map (fun t => Effect.targetProcess t (some e)))).flatten
          ++ targets.map (fun t => Effect.targetProcess t none)) =
      es.map some ++ [none] := by
  induction es with
  | nil => simp [observed_fanout, hp]
  | cons e es ih =>
    simp only [List.map_cons, List.flatten_cons, List.append_assoc]
    rw [observed_append, ih, observed_fanout, hp]
    rfl

/-! ## Console target -/

theorem colorMap_none (s : Int) (h : s < 0 ∨ 7 < s) : (colorMap.lookup s).isNone = true := by
  have h0 : (s == 0) = false := by simp; omega
  have h1 : (s == 1) = false := by simp; omega
  have h2 : (s == 2) = false := by simp; omega
  have h3 : (s == 3) = false := by simp; omega
  have h4 : (s == 4) = false := by simp; omega
  have h5 : (s == 5) = false := by simp; omega
  have h6 : (s == 6) = false := by simp; omega
  have h7 : (s == 7) = false := by simp; omega
  simp only [colorMap, List.lookup, SeverityEmergency, SeverityAlert,
    SeverityCritical, SeverityError, SeverityWarning, SeverityNotice, SeverityInfo,
    SeverityDebug, h0, h1, h2, h3, h4, h5, h6, h7]
  rfl

/-- Claim C10: for an entry that is not the drain signal `ConsoleTarget.Process`
makes one write to the target's writer: the formatted message and a newline,
wrapped in `ESC[<code>m` and `ESC[0m` when colour mode is on and the severity is
one of the eight, with the codes 1;95, 1;91, 35, 31, 33, 36, 32, 39; for
severity Error, category app and message boom under `DefaultFormatter` with no
call stack the text inside the wrapper is `<timestamp> [Error][app] boom`. -/
theorem ConsoleTarget_Process_line (t : ConsoleTarget) (e : Entry) (w : Writer)
    (hw : t.Writer = some w) :
    (∀ code, (e.Severity, code) ∈
        [((0 : Int), "1;95"), (1, "1;91"), (2, "35"), (3, "31"), (4, "33"), (5, "36"),
          (6, "32"), (7, "39")] →
      t.ColorMode = true →
      t.Process (some e) = Outcome.returned
        [Effect.write w ("\x1b[" ++ code ++ "m" ++ e.FormattedMessage ++ "\x1b[0m" ++ "\n")]) ∧
    ((t.ColorMode = false ∨ e.Severity < 0 ∨ 7 < e.Severity) →
      t.Process (some e) = Outcome.returned [Effect.write w (e.FormattedMessage ++ "\n")]) ∧
    (∀ (l : LogKitView) (e0 : Entry),
      e0.Severity = SeverityError → e0.Category = "app" → e0.Message = "boom" →
      e0.CallStack = "" → e.Severity = SeverityError →
      e.FormattedMessage = DefaultFormatter l e0 →
      t.Process (some e) = Outcome.returned
        [Effect.write w
          (if t.ColorMode = true then
            "\x1b[31m" ++ (e0.Time.Format Layout.RFC3339 ++ " [Error][app] boom") ++ "\x1b[0m" ++ "\n"
          else e0.Time.Format Layout.RFC3339 ++ " [Error][app] boom" ++ "\n")]) := by
  refine ⟨?_, ?_, ?_⟩
  · intro code hmem hcm
    simp only [List.mem_cons, List.mem_singleton, Prod.mk.injEq, List.not_mem_nil, or_false]
      at hmem
    rcases hmem with ⟨hs, hc⟩ | ⟨hs, hc⟩ | ⟨hs, hc⟩ | ⟨hs, hc⟩ | ⟨hs, hc⟩ | ⟨hs, hc⟩ |
      ⟨hs, hc⟩ | ⟨hs, hc⟩ <;>
    · subst hc
      simp only [ConsoleTarget.Process, hcm, hw, hs, Entry.String]
      rfl
  · intro h
    rcases h with h | h
    · simp [ConsoleTarget.Process, h, hw, Entry.String]
    · have hn := colorMap_none e.Severity h
      cases hc : colorMap.lookup e.Severity with
      | some f => rw [hc] at hn; cases hn
      | none => cases hcm : t.ColorMode <;> simp [ConsoleTarget.Process, hcm, hw, hc, Entry.String]
  · intro l e0 h1 h2 h3 h4 h5 h6
    have hfm : e.FormattedMessage = e0.Time.Format Layout.RFC3339 ++ " [Error][app] boom" := by
      rw [h6, DefaultFormatter_eq, h1, h2, h3, h4]
      apply String.ext
      simp [String.data_append]
      decide
    cases hcm : t.ColorMode with
    | false => simp [ConsoleTarget.Process, hcm, hw, Entry.String, hfm]
    | true =>
      simp only [ConsoleTarget.Process, hcm, hw, h5, Entry.String, hfm]
      rfl

theorem ConsoleTarget_Process_line_witness :
    NewConsoleTarget.Process (some boomFormatted) = Outcome.returned
      [Effect.write Stdout
        ("\x1b[" ++ "31" ++ "m" ++ "2021-03-04T05:06:07Z [Error][app] boom" ++ "\x1b[0m" ++ "\n")] :=
  (ConsoleTarget_Process_line NewConsoleTarget boomFormatted Stdout rfl).1 "31"
    (by decide) rfl

/-! ## Copy -/

/-- Claim C7, on the code: `Copy` shares the core and stores its two arguments
as they are; for the handle of `NewLogKit`, whose category is `app`, `Copy`
with an empty category and a nil formatter yields an empty category and a nil
formatter, not `app` and `DefaultFormatter`. -/
theorem Copy_takes_arguments :
    (∀ (l : LogKit) (category : String) (formatter : Option Formatter),
      (l.Copy category formatter).core = l.core ∧
      (l.Copy category formatter).Category = category ∧
      (l.Copy category formatter).Formatter = formatter) ∧
    (NewLogKit 0).1.Category = "app" ∧
    ((NewLogKit 0).1.Copy "" none).Category = "" ∧
    ((NewLogKit 0).1.Copy "" none).Formatter.isNone = true :=
  ⟨fun _ _ _ => ⟨rfl, rfl, rfl⟩, rfl, rfl, rfl⟩

/-! ## Shutdown protocol -/

theorem updateAt_kinds (f : TargetState → TargetState) (hf : ∀ t, (f t).kind = t.kind) :
    ∀ (l : List TargetState) (i : Nat),
      (updateAt l i f).map (fun t => t.kind) = l.map (fun t => t.kind) := by
  intro l
  induction l with
  | nil => intro i; rfl
  | cons t ts ih =>
    intro i
    cases i with
    | zero => simp [updateAt, hf]
    | succ i => simp [updateAt, ih i]

theorem kinds_getElem (s : Sys) (k : Nat) (t : TargetState) (h : s.targets[k]? = some t) :
    s.kinds[k]? = some t.kind := by
  simp [Sys.kinds, List.getElem?_map, h]

theorem advance_kinds (s : Sys) (g : Gid) : (s.advance g).kinds = s.kinds := by
  cases g with
  | closer => simp only [Sys.advance]; split <;> rfl
  | worker => simp only [Sys.advance]; split <;> rfl
  | sender i =>
    simp only [Sys.advance, Sys.kinds]
    apply updateAt_kinds
    intro t
    rfl

theorem pending_recv (s : Sys) (h : Gid) (k : Nat) (hp : s.pending h = some (Op.recv k)) :
    h = Gid.closer ∧ s.closer = CloserPc.target k ∧
      ∃ t, s.targets[k]? = some t ∧ t.kind ≠ Kind.network := by
  cases h with
  | closer =>
    simp only [Sys.pending] at hp
    split at hp
    · rename_i i hc
      split at hp
      · rename_i t ht
        split at hp
        · cases hp
        · rename_i hk
          injection hp with hp
          injection hp with hp
          subst hp
          exact ⟨rfl, hc, t, ht, hk⟩
      · cases hp
    · cases hp
  | worker =>
    simp only [Sys.pending] at hp
    split at hp
    · split at hp
      · split at hp
        · cases hp
        · cases hp
      · cases hp
    · cases hp
  | sender i =>
    simp only [Sys.pending] at hp
    split at hp
    · split at hp <;> cases hp
    · cases hp

theorem pending_send_worker (s : Sys) (k : Nat) (hp : s.pending Gid.worker = some (Op.send k)) :
    s.worker = WorkerPc.fanout none k := by
  simp only [Sys.pending] at hp
  split at hp
  · rename_i j hw
    split at hp
    · split at hp
      · cases hp
      · injection hp with hp
        injection hp with hp
        subst hp
        exact hw
    · cases hp
  · cases hp

theorem mem_rendezvous (s s2 : Sys) (h : s2 ∈ s.rendezvous) :
    ∃ g k, s.pending g = some (Op.send k) ∧ s.pending Gid.closer = some (Op.recv k) ∧
      s2 = (s.advance g).advance Gid.closer := by
  simp only [Sys.rendezvous, List.mem_flatten, List.mem_map] at h
  obtain ⟨l1, ⟨g, _, rfl⟩, h⟩ := h
  simp only [List.mem_flatten, List.mem_map] at h
  obtain ⟨l2, ⟨h2, _, rfl⟩, h⟩ := h
  simp only [Sys.meet] at h
  split at h
  · rename_i i j hg hh
    split at h
    · rename_i hij
      subst hij
      simp only [List.mem_singleton] at h
      obtain ⟨hc, _, _⟩ := pending_recv s h2 i hh
      subst hc
      exact ⟨g, i, hg, hh, h⟩
    · cases h
  · cases h

theorem closer_of_advance (s : Sys) (g : Gid) (hg : g ≠ Gid.closer) :
    (s.advance g).closer = s.closer := by
  cases g with
  | closer => exact absurd rfl hg
  | worker => simp only [Sys.advance]; split <;> rfl
  | sender i => rfl

theorem closer_of_advance_closer (s : Sys) (k : Nat) (h : s.closer = CloserPc.target k) :
    (s.advance Gid.closer).closer = CloserPc.target (k + 1) := by
  simp only [Sys.advance, h]

theorem worker_of_advance_closer (s : Sys) : (s.advance Gid.closer).worker = s.worker := by
  simp only [Sys.advance]; split <;> rfl

theorem rendezvous_spec (s s2 : Sys) (h : s2 ∈ s.rendezvous) :
    ∃ g k t, g ≠ Gid.closer ∧ s.pending g = some (Op.send k) ∧ s.closer = CloserPc.target k ∧
      s.targets[k]? = some t ∧ t.kind ≠ Kind.network ∧
      s2.closer = CloserPc.target (k + 1) ∧ s2.worker = (s.advance g).worker ∧
      s2.kinds = s.kinds := by
  obtain ⟨g, k, hg, hc, rfl⟩ := mem_rendezvous s s2 h
  obtain ⟨_, hcl, t, ht, hk⟩ := pending_recv s Gid.closer k hc
  have hne : g ≠ Gid.closer := by
    intro e; subst e; rw [hg] at hc; cases hc
  refine ⟨g, k, t, hne, hg, hcl, ht, hk, ?_, worker_of_advance_closer _, ?_⟩
  · have h1 : (s.advance g).closer = CloserPc.target k := by
      rw [closer_of_advance s g hne, hcl]
    exact closer_of_advance_closer _ k h1
  · rw [advance_kinds, advance_kinds]

theorem closerSteps_spec (s s2 : Sys) (h : s2 ∈ s.closerSteps) :
    s2.kinds = s.kinds ∧ s2.worker = s.worker ∧
      ((s.closer = CloserPc.closeEntries ∧ s2.closer = CloserPc.target 0) ∨
        (∃ i, s.closer = CloserPc.target i ∧ s.targets.length ≤ i ∧
          s2.closer = CloserPc.returned)) := by
  simp only [Sys.closerSteps] at h
  split at h
  · rename_i hc
    simp only [List.mem_singleton] at h
    subst h
    exact ⟨rfl, rfl, Or.inl ⟨hc, rfl⟩⟩
  · rename_i i hc
    split at h
    · rename_i hlen
      simp only [List.mem_singleton] at h
      subst h
      exact ⟨rfl, rfl, Or.inr ⟨i, hc, hlen, rfl⟩⟩
    · cases h
  · cases h

theorem workerSteps_spec (s s2 : Sys) (h : s2 ∈ s.workerSteps) :
    s2.kinds = s.kinds ∧ s2.closer = s.closer ∧
      ((s.worker = WorkerPc.recv ∧ ∃ entry, s2.worker = WorkerPc.fanout entry 0) ∨
        (∃ j, s.worker = WorkerPc.fanout none j ∧ s.targets[j]? = none ∧
          s2.worker = WorkerPc.returned) ∨
        (∃ e j, s.worker = WorkerPc.fanout (some e) j ∧
          (s2.worker = WorkerPc.recv ∨ s2.worker = WorkerPc.fanout (some e) (j + 1))) ∨
        (∃ j t, s.worker = WorkerPc.fanout none j ∧ s.targets[j]? = some t ∧
          t.kind = Kind.network ∧ s2.worker = WorkerPc.fanout none (j + 1))) := by
  simp only [Sys.workerSteps] at h
  split at h
  · rename_i hw
    split at h
    · simp only [List.mem_singleton] at h
      subst h
      exact ⟨rfl, rfl, Or.inl ⟨hw, _, rfl⟩⟩
    · split at h
      · simp only [List.mem_singleton] at h
        subst h
        exact ⟨rfl, rfl, Or.inl ⟨hw, _, rfl⟩⟩
      · cases h
  · rename_i entry j hw
    split at h
    · rename_i ht
      split at h
      · simp only [List.mem_singleton] at h
        subst h
        exact ⟨rfl, rfl, Or.inr (Or.inl ⟨j, hw, ht, rfl⟩)⟩
      · rename_i e
        simp only [List.mem_singleton] at h
        subst h
        exact ⟨rfl, rfl, Or.inr (Or.inr (Or.inl ⟨e, j, hw, Or.inl rfl⟩))⟩
    · rename_i t ht
      split at h
      · rename_i e hk
        split at h
        · simp only [List.mem_singleton] at h
          subst h
          exact ⟨by apply updateAt_kinds; intro t; rfl, rfl,
            Or.inr (Or.inr (Or.inl ⟨e, j, hw, Or.inr rfl⟩))⟩
        · cases h
      · rename_i hk
        split at h
        · cases h
        · simp only [List.mem_singleton] at h
          subst h
          exact ⟨by apply updateAt_kinds; intro t; rfl, rfl,
            Or.inr (Or.inr (Or.inr ⟨j, t, hw, ht, hk, rfl⟩))⟩
      · rename_i e _
        simp only [List.mem_singleton] at h
        subst h
        exact ⟨by apply updateAt_kinds; intro t; rfl, rfl,
          Or.inr (Or.inr (Or.inl ⟨e, j, hw, Or.inr rfl⟩))⟩
      · cases h
  · cases h

theorem senderSteps_spec (s s2 : Sys) (h : s2 ∈ s.senderSteps) :
    s2.kinds = s.kinds ∧ s2.closer = s.closer ∧ s2.worker = s.worker := by
  simp only [Sys.senderSteps, List.mem_flatten, List.mem_map] at h
  obtain ⟨l, ⟨i, _, rfl⟩, h⟩ := h
  simp only [Sys.senderStepsAt] at h
  split at h
  · split at h
    · split at h
      · simp only [List.mem_singleton] at h
        subst h
        exact ⟨by apply updateAt_kinds; intro t; rfl, rfl, rfl⟩
      · split at h
        · simp only [List.mem_singleton] at h
          subst h
          exact ⟨by apply updateAt_kinds; intro t; rfl, rfl, rfl⟩
        · cases h
    · cases h
  · cases h

theorem lt_of_getElem_some {α : Type} {l : List α} {i : Nat} {a : α} (h : l[i]? = some a) :
    i < l.length := by
  by_contra hn
  rw [List.getElem?_eq_none (by omega)] at h
  cases h

theorem kinds_length (s : Sys) : s.kinds.length = s.targets.length := by
  simp [Sys.kinds]

theorem step_kinds (s s2 : Sys) (h : s2 ∈ s.step) : s2.kinds = s.kinds := by
  simp only [Sys.step, List.mem_append] at h
  rcases h with ((h | h) | h) | h
  · exact (closerSteps_spec s s2 h).1
  · exact (workerSteps_spec s s2 h).1
  · exact (senderSteps_spec s s2 h).1
  · obtain ⟨_, _, _, _, _, _, _, _, _, _, hk⟩ := rendezvous_spec s s2 h
    exact hk

theorem closer_step (s s2 : Sys) (i : Nat) (hk : s.kinds[i]? = some Kind.network)
    (hup : CloserPc.upTo i s.closer) (h : s2 ∈ s.step) : CloserPc.upTo i s2.closer := by
  have hlen : i < s.targets.length := by
    have := lt_of_getElem_some hk
    rwa [kinds_length] at this
  simp only [Sys.step, List.mem_append] at h
  rcases h with ((h | h) | h) | h
  · obtain ⟨_, _, hc⟩ := closerSteps_spec s s2 h
    rcases hc with ⟨_, h2⟩ | ⟨k, h1, hl, _⟩
    · rw [h2]; exact Nat.zero_le i
    · rw [h1] at hup
      have : k ≤ i := hup
      omega
  · rw [(workerSteps_spec s s2 h).2.1]; exact hup
  · rw [(senderSteps_spec s s2 h).2.1]; exact hup
  · obtain ⟨g, k, t, _, _, hcl, ht, hne, h2, _, _⟩ := rendezvous_spec s s2 h
    rw [hcl] at hup
    have hki : k ≤ i := hup
    have hki2 : k ≠ i := by
      intro e
      subst e
      rw [kinds_getElem s k t ht] at hk
      injection hk with hk
      exact hne hk
    rw [h2]
    show k + 1 ≤ i
    omega

theorem worker_step (s s2 : Sys) (i j : Nat) (kj : Kind)
    (hj : s.kinds[j]? = some kj) (hkj : kj ≠ Kind.network) (hij : i < j)
    (hc : CloserPc.upTo i s.closer) (hw : WorkerPc.upTo j s.worker) (h : s2 ∈ s.step) :
    WorkerPc.upTo j s2.worker := by
  have hlen : j < s.targets.length := by
    have := lt_of_getElem_some hj
    rwa [kinds_length] at this
  simp only [Sys.step, List.mem_append] at h
  rcases h with ((h | h) | h) | h
  · rw [(closerSteps_spec s s2 h).2.1]; exact hw
  · obtain ⟨_, _, hsp⟩ := workerSteps_spec s s2 h
    rcases hsp with ⟨_, entry, h2⟩ | ⟨k, h1, hnone, _⟩ | ⟨e, k, _, h2 | h2⟩ | ⟨k, t, h1, ht, hk, h2⟩
    · rw [h2]
      cases entry with
      | none => exact Nat.zero_le j
      | some e => exact trivial
    · rw [h1] at hw
      have hkj2 : k ≤ j := hw
      have : k < s.targets.length := by omega
      rw [List.getElem?_eq_getElem this] at hnone
      cases hnone
    · rw [h2]; exact trivial
    · rw [h2]; exact trivial
    · rw [h1] at hw
      have hkj2 : k ≤ j := hw
      have hne : k ≠ j := by
        intro e
        subst e
        rw [kinds_getElem s k t ht] at hj
        injection hj with hj
        exact hkj (hj ▸ hk)
      rw [h2]
      show k + 1 ≤ j
      omega
  · rw [(senderSteps_spec s s2 h).2.2]; exact hw
  · obtain ⟨g, k, t, hg, hp, hcl, _, _, _, h2, _⟩ := rendezvous_spec s s2 h
    rw [hcl] at hc
    have hki : k ≤ i := hc
    rw [h2]
    cases g with
    | closer => exact absurd rfl hg
    | worker =>
      have hwk := pending_send_worker s k hp
      simp only [Sys.advance, hwk]
      show k + 1 ≤ j
      omega
    | sender m => exact hw

theorem start_kinds (kinds : List Kind) (queue : List Entry) :
    (Sys.start kinds queue).kinds = kinds := by
  simp [Sys.start, Sys.kinds, Function.comp_def]

theorem reach_kinds (a s : Sys) (h : Reach a s) : s.kinds = a.kinds := by
  induction h with
  | here => rfl
  | next _ hstep ih => rw [step_kinds _ _ hstep, ih]

theorem reach_closer (kinds : List Kind) (queue : List Entry) (i : Nat)
    (hi : kinds[i]? = some Kind.network) (s : Sys) (h : Reach (Sys.start kinds queue) s) :
    CloserPc.upTo i s.closer := by
  induction h with
  | here => exact trivial
  | next hr hstep ih =>
    apply closer_step _ _ i _ ih hstep
    rw [reach_kinds _ _ hr, start_kinds]
    exact hi

/-- Claim C8, on the code: when one of the active targets is a network target,
`core.Close` never returns, from whatever queue it starts: `NetworkTarget.Close`
sends on `t.close`, and no goroutine receives from that channel. -/
theorem Close_never_returns_with_network (kinds : List Kind) (queue : List Entry) (i : Nat)
    (hi : kinds[i]? = some Kind.network) (s : Sys) (h : Reach (Sys.start kinds queue) s) :
    s.closer ≠ CloserPc.returned := by
  intro e
  have := reach_closer kinds queue i hi s h
  rw [e] at this
  exact this

theorem network_shutdown_stuck :
    Reach (Sys.start [Kind.network] []) networkStuck ∧ networkStuck.step = [] := by
  refine ⟨?_, by decide⟩
  have s1 : Reach (Sys.start [Kind.network] []) (Sys.start [Kind.network] []) := Reach.here
  have s2 := Reach.next s1 (c := { Sys.start [Kind.network] [] with
    queueClosed := true, closer := CloserPc.target 0 }) (by decide)
  have s3 := Reach.next s2 (c := { Sys.start [Kind.network] [] with
    queueClosed := true, closer := CloserPc.target 0, worker := WorkerPc.fanout none 0 })
    (by decide)
  have s4 := Reach.next s3 (c := { networkStuck with
    targets := [{ kind := Kind.network, entries := [], entriesClosed := true,
                  sender := SenderPc.recv, delivered := [] }],
    worker := WorkerPc.fanout none 1 }) (by decide)
  have s5 := Reach.next s4 (c := { networkStuck with
    targets := [{ kind := Kind.network, entries := [], entriesClosed := true,
                  sender := SenderPc.recv, delivered := [] }] }) (by decide)
  exact Reach.next s5 (by decide)

theorem Close_never_returns_with_network_witness :
    Reach (Sys.start [Kind.network] []) networkStuck ∧
      networkStuck.closer ≠ CloserPc.returned :=
  ⟨network_shutdown_stuck.1,
    Close_never_returns_with_network [Kind.network] [] 0 rfl networkStuck
      network_shutdown_stuck.1⟩

/-- Claim C2, on the code: when a network target stands before a console or file
target in the list of active targets, `core.process` never returns after the
queue is closed: it stays in `Process(nil)` of the later target, whose `Close`
is never called because `core.Close` does not get past the network target. -/
theorem process_never_returns_behind_network (kinds : List Kind) (queue : List Entry)
    (i j : Nat) (kj : Kind) (hi : kinds[i]? = some Kind.network) (hj : kinds[j]? = some kj)
    (hkj : kj ≠ Kind.network) (hij : i < j) (s : Sys)
    (h : Reach (Sys.start kinds queue) s) :
    s.worker ≠ WorkerPc.returned := by
  have key : WorkerPc.upTo j s.worker := by
    induction h with
    | here => exact trivial
    | next hr hstep ih =>
      have hk := reach_kinds _ _ hr
      rw [start_kinds] at hk
      exact worker_step _ _ i j kj (hk ▸ hj) hkj hij
        (reach_closer kinds queue i hi _ hr) ih hstep
  intro e
  rw [e] at key
  exact key

theorem mixed_shutdown_stuck :
    Reach (Sys.start [Kind.network, Kind.console] []) mixedStuck ∧ mixedStuck.step = [] := by
  refine ⟨?_, by decide⟩
  have s1 : Reach (Sys.start [Kind.network, Kind.console] [])
      (Sys.start [Kind.network, Kind.console] []) := Reach.here
  have s2 := Reach.next s1 (c := { Sys.start [Kind.network, Kind.console] [] with
    queueClosed := true, closer := CloserPc.target 0 }) (by decide)
  have s3 := Reach.next s2 (c := { Sys.start [Kind.network, Kind.console] [] with
    queueClosed := true, closer := CloserPc.target 0, worker := WorkerPc.fanout none 0 })
    (by decide)
  have s4 := Reach.next s3 (c := { mixedStuck with
    targets := [{ kind := Kind.network, entries := [], entriesClosed := true,
                  sender := SenderPc.recv, delivered := [] },
                { kind := Kind.console, entries := [], entriesClosed := false,
                  sender := SenderPc.absent, delivered := [] }] }) (by decide)
  exact Reach.next s4 (by decide)

theorem process_never_returns_behind_network_witness :
    Reach (Sys.start [Kind.network, Kind.console] []) mixedStuck ∧
      mixedStuck.worker ≠ WorkerPc.returned :=
  ⟨mixed_shutdown_stuck.1,
    process_never_returns_behind_network [Kind.network, Kind.console] [] 0 1 Kind.console
      rfl rfl (by decide) (by decide) mixedStuck mixed_shutdown_stuck.1⟩

theorem console_shutdown_returns :
    Reach (Sys.start [Kind.console] [boomFormatted]) consoleDone := by
  have s1 : Reach (Sys.start [Kind.console] [boomFormatted])
      (Sys.start [Kind.console] [boomFormatted]) := Reach.here
  have s2 := Reach.next s1 (c := { Sys.start [Kind.console] [boomFormatted] with
    queueClosed := true, closer := CloserPc.target 0 }) (by decide)
  have s3 := Reach.next s2 (c := { Sys.start [Kind.console] [] with
    queueClosed := true, closer := CloserPc.target 0,
    worker := WorkerPc.fanout (some boomFormatted) 0 }) (by decide)
  have s4 := Reach.next s3 (c := { consoleDone with
    closer := CloserPc.target 0, worker := WorkerPc.fanout (some boomFormatted) 1 })
    (by decide)
  have s5 := Reach.next s4 (c := { consoleDone with
    closer := CloserPc.target 0, worker := WorkerPc.recv }) (by decide)
  have s6 := Reach.next s5 (c := { consoleDone with
    closer := CloserPc.target 0, worker := WorkerPc.fanout none 0 }) (by decide)
  have s7 := Reach.next s6 (c := { consoleDone with
    closer := CloserPc.target 1, worker := WorkerPc.fanout none 1 }) (by decide)
  have s8 := Reach.next s7 (c := { consoleDone with
    worker := WorkerPc.fanout none 1 }) (by decide)
  exact Reach.next s8 (by decide)

end Logkit
